import Mathlib

/-!
Verification development for the sv-staden build scripts.

The repository consists of: an image-optimizer pipeline
(src/scripts/optimize-images.mjs) keeping a content-hash cache, a Notion image
fetcher with slug-based file naming and redirect-following downloads, and
near-duplicate news record shaping modules sharing a slugify and a formatDate
helper.  This file shallowly embeds that code: the filesystem and the
optimizer cache become string-keyed association maps, byte contents become
lists of naturals, and the external collaborators that the spec rules out of
scope (the sharp codec, the MD5 digest, the JS Date runtime, the HTTP stack)
become explicit function parameters.  All repository-side control flow is
translated directly from the source.
-/

deriving instance DecidableEq for Except

namespace SvStaden

/-- Lookup in a string-keyed association map.  Models both reading a file from
the on-disk file system (path to byte content) and reading an optimizer cache
entry (path to entry); the first binding for a key wins, matching a JS object
where `aSet` below always prepends the freshest binding. -/
def aGet {α : Type} : List (String × α) → String → Option α
  | [], _ => none
  | e :: rest, k => if e.1 = k then some e.2 else aGet rest k

/-- Remove every binding of key `k` (used by `aSet` and to model
`fs.unlinkSync`). -/
def aDel {α : Type} : List (String × α) → String → List (String × α)
  | [], _ => []
  | e :: rest, k => if e.1 = k then aDel rest k else e :: aDel rest k

/-- Overwrite the binding of key `k` with value `v`; models both
`fs.writeFileSync`/`toFile` on a path and `imageCache[filepath] = entry`. -/
def aSet {α : Type} (m : List (String × α)) (k : String) (v : α) : List (String × α) :=
  (k, v) :: aDel m k

theorem aGet_aDel_self {α : Type} (m : List (String × α)) (k : String) :
    aGet (aDel m k) k = none := by
  induction m with
  | nil => rfl
  | cons e rest ih =>
    by_cases h : e.1 = k
    · simpa [aDel, h] using ih
    · simpa [aDel, aGet, h] using ih

theorem aGet_aDel_ne {α : Type} (m : List (String × α)) (k q : String) (h : q ≠ k) :
    aGet (aDel m k) q = aGet m q := by
  induction m with
  | nil => rfl
  | cons e rest ih =>
    by_cases hk : e.1 = k
    · have : e.1 ≠ q := by
        intro hq
        exact h (hq ▸ hk)
      simp [aDel, aGet, hk, this, ih, Ne.symm h]
    · by_cases hq : e.1 = q
      · simp [aDel, aGet, hk, hq, h]
      · simp [aDel, aGet, hk, hq, ih]

theorem aGet_aSet_self {α : Type} (m : List (String × α)) (k : String) (v : α) :
    aGet (aSet m k v) k = some v := by
  simp [aSet, aGet]

theorem aGet_aSet_ne {α : Type} (m : List (String × α)) (k q : String) (v : α) (h : q ≠ k) :
    aGet (aSet m k v) q = aGet m q := by
  have : k ≠ q := fun hk => h hk.symm
  simp [aSet, aGet, this, aGet_aDel_ne m k q h]

/-- Model of `fs.renameSync src dst`: move the content bound at `src` to
`dst`, overwriting `dst` (a missing source leaves the map unchanged; the
optimizer only renames the temp file it has just written). -/
def fsRename {α : Type} (m : List (String × α)) (src dst : String) : List (String × α) :=
  match aGet m src with
  | none => m
  | some c => aSet (aDel m src) dst c

theorem aGet_fsRename_dst {α : Type} (m : List (String × α)) (src dst : String) (c : α)
    (h : aGet m src = some c) : aGet (fsRename m src dst) dst = some c := by
  simp [fsRename, h, aGet_aSet_self]

theorem aGet_fsRename_src {α : Type} (m : List (String × α)) (src dst : String) (c : α)
    (h : aGet m src = some c) (hne : src ≠ dst) :
    aGet (fsRename m src dst) src = none := by
  simp [fsRename, h, aGet_aSet_ne _ _ _ _ hne, aGet_aDel_self]

theorem aGet_fsRename_other {α : Type} (m : List (String × α)) (src dst q : String) (c : α)
    (h : aGet m src = some c) (h1 : q ≠ dst) (h2 : q ≠ src) :
    aGet (fsRename m src dst) q = aGet m q := by
  simp [fsRename, h, aGet_aSet_ne _ _ _ _ h1, aGet_aDel_ne _ _ _ h2]

/-! ## String utilities shared by the scripts -/

/-- Model of JS `String.prototype.toLowerCase` on one character, over the
character repertoire the repository actually handles: ASCII letters plus the
German letters appearing in slugify's lookup table.  Characters outside this
repertoire are left unchanged (any such character is not in `[a-z0-9]` either
before or after real-world lowercasing, so the slug pipeline treats it
identically). -/
def jsToLower (c : Char) : Char :=
  if 'A' ≤ c ∧ c ≤ 'Z' then Char.ofNat (c.toNat + 32)
  else if c = 'Ä' then 'ä'
  else if c = 'Ö' then 'ö'
  else if c = 'Ü' then 'ü'
  else c

def lowerL (l : List Char) : List Char := l.map jsToLower

/-- The part of a path after the last slash, as in Node's `path.basename`. -/
def basenameL (l : List Char) : List Char :=
  ((l.reverse).takeWhile (fun c => c ≠ '/')).reverse

/-- Model of Node's `path.extname`: the suffix of the basename starting at its
last dot, empty when there is no dot or the only dot starts the basename. -/
def extnameL (l : List Char) : List Char :=
  let b := basenameL l
  let suf := (b.reverse).takeWhile (fun c => c ≠ '.')
  if b.length - 1 ≤ suf.length then [] else '.' :: suf.reverse

def isPrefixOfL : List Char → List Char → Bool
  | [], _ => true
  | _ :: _, [] => false
  | a :: as, b :: bs => a = b && isPrefixOfL as bs

/-- Does `pat` occur as a contiguous substring?  Models JS
`String.prototype.includes`. -/
def containsL (pat : List Char) : List Char → Bool
  | [] => pat.isEmpty
  | c :: rest => isPrefixOfL pat (c :: rest) || containsL pat rest

/-- Model of JS `String.prototype.replace` with a plain-string pattern: only
the first occurrence of `pat` is replaced by `repl`; no occurrence leaves the
string unchanged. -/
def replaceFirstL : List Char → List Char → List Char → List Char
  | [], pat, repl => if pat.isEmpty then repl else []
  | c :: rest, pat, repl =>
    if isPrefixOfL pat (c :: rest) then repl ++ (c :: rest).drop pat.length
    else c :: replaceFirstL rest pat repl

/-- String wrappers over the character-list versions. -/
def lowerStr (s : String) : String := ⟨lowerL s.data⟩

def extname (s : String) : String := ⟨extnameL s.data⟩

def containsStr (s pat : String) : Bool := containsL pat.data s.data

def replaceFirstStr (s pat repl : String) : String := ⟨replaceFirstL s.data pat.data repl.data⟩

/-! ## Slug derivation (shared utility, §4.4)

Source (identical in all three modules):
```
text.toLowerCase()
    .replace(/[äöüß]/g, c => ({ä:'ae', ö:'oe', ü:'ue', ß:'ss'})[c] || c)
    .replace(/[^a-z0-9]+/g, '-')
    .replace(/(^-|-$)/g, '')
```
The run-collapsing regex is embedded as: map every character outside
`[a-z0-9]` to a hyphen, then drop a hyphen that is immediately followed by
another (`squash`), which collapses each maximal run to a single hyphen.  The
final regex removes at most one leading and one trailing hyphen, modelled by
`stripLead` and `stripTrail`. -/

/-- The umlaut/sharp-s digraph table of slugify, applied characterwise. -/
def umlautExpand (c : Char) : List Char :=
  if c = 'ä' then ['a', 'e']
  else if c = 'ö' then ['o', 'e']
  else if c = 'ü' then ['u', 'e']
  else if c = 'ß' then ['s', 's']
  else [c]

def isLowerAlnum (c : Char) : Bool :=
  (decide ('a' ≤ c) && decide (c ≤ 'z')) || (decide ('0' ≤ c) && decide (c ≤ '9'))

def toHyphen (c : Char) : Char := if isLowerAlnum c then c else '-'

/-- Collapse consecutive hyphens: together with `toHyphen` this is the
`[^a-z0-9]+ → -` regex replacement. -/
def squash : List Char → List Char
  | [] => []
  | [c] => [c]
  | a :: b :: rest =>
    if a = '-' ∧ b = '-' then squash (b :: rest) else a :: squash (b :: rest)

/-- Drop one leading hyphen (the `^-` alternative of the final regex). -/
def stripLead : List Char → List Char
  | [] => []
  | c :: rest => if c = '-' then rest else c :: rest

/-- Drop one trailing hyphen (the `-$` alternative of the final regex). -/
def stripTrail : List Char → List Char
  | [] => []
  | [c] => if c = '-' then [] else [c]
  | a :: b :: rest => a :: stripTrail (b :: rest)

def slugifyL (l : List Char) : List Char :=
  stripTrail (stripLead (squash (((lowerL l).flatMap umlautExpand).map toHyphen)))

/-- Function `slugify` from the repository's three modules (download script and both
news libraries share this definition verbatim). -/
def slugify (s : String) : String := ⟨slugifyL s.data⟩

/-! ## Optimizer data model (src/scripts/optimize-images.mjs)

File contents are byte lists; the file system and the cache are association
maps.  The externally owned collaborators are parameters: `hashFn` stands for
the MD5 digest of `getFileHash` (any function of the byte content), and
`Codec` stands for the sharp library: reading metadata can fail, and encoding
a (possibly resized) image to a target format can fail; both are otherwise
opaque.  Floating-point display values (the `savedPercent` log line) are not
modelled. -/

abbrev FS := List (String × List Nat)

/-- One entry of `.image-cache.json`:
`{hash, optimized, originalSize, optimizedSize, timestamp}`. -/
structure CacheEntry where
  hash : Nat
  optimized : Bool
  originalSize : Nat
  optimizedSize : Nat
  timestamp : String
deriving DecidableEq, Repr

abbrev Cache := List (String × CacheEntry)

/-- The format-specific encoder options of the three `toFile` branches. -/
inductive EncOpts where
  | jpeg (quality : Nat) (progressive mozjpeg : Bool)
  | png (compressionLevel : Nat) (progressive : Bool)
  | webp (quality : Nat)
deriving DecidableEq, Repr

/-- The sharp codec as an external collaborator: `metadataWidth` models
`image.metadata()` returning an optional pixel width, `encode` models the
resize-and-encode pipeline written with `toFile` (the `Option Nat` is the
`resize(maxWidth, ...)` bound, `none` when no resize is applied).  An
`Except.error` models a thrown codec error; on error nothing is written. -/
structure Codec where
  metadataWidth : List Nat → Except String (Option Nat)
  encode : List Nat → Option Nat → EncOpts → Except String (List Nat)

namespace CONFIG

def maxWidth : Nat := 1920

def newsMaxWidth : Nat := 1200

def jpegQuality : Nat := 85

def webpQuality : Nat := 80

def pngCompressionLevel : Nat := 9

def supportedFormats : List String := [".jpg", ".jpeg", ".png", ".webp"]

end CONFIG

/-- Expression `path.extname(filepath).toLowerCase()` as computed at the top of
`optimizeImage`. -/
def extOf (filepath : String) : String := lowerStr (extname filepath)

/-- Expression `filepath.includes('/news/') ? CONFIG.newsMaxWidth : CONFIG.maxWidth`. -/
def maxWidthFor (filepath : String) : Nat :=
  if containsStr filepath "/news/" then CONFIG.newsMaxWidth else CONFIG.maxWidth

/-- Test `metadata.width && metadata.width > maxWidth`: whether the resize branch
fires. -/
def resizeDecision (filepath : String) (width : Option Nat) : Bool :=
  match width with
  | some w => decide (w > maxWidthFor filepath)
  | none => false

def resizeToFor (filepath : String) (width : Option Nat) : Option Nat :=
  if resizeDecision filepath width then some (maxWidthFor filepath) else none

/-- The encoder options chosen by the extension dispatch (`.jpg`/`.jpeg`,
`.png`, `.webp`); callers only reach this with a supported extension. -/
def encOptsFor (ext : String) : EncOpts :=
  if ext = ".jpg" ∨ ext = ".jpeg" then .jpeg CONFIG.jpegQuality true true
  else if ext = ".png" then .png CONFIG.pngCompressionLevel true
  else .webp CONFIG.webpQuality

/-- Line `const tempPath = filepath + '.tmp'`. -/
def tempPathOf (filepath : String) : String := filepath ++ ".tmp"

/-- Line `const webpPath = filepath.replace(ext, '.webp')` — note JS `replace`
rewrites only the first occurrence of the extension substring. -/
def webpPathOf (filepath ext : String) : String := replaceFirstStr filepath ext ".webp"

/-- Predicate `isOptimized(filepath, hash)`: a cache entry exists, its hash matches, and
its optimized flag is set. -/
def isOptimized (cache : Cache) (filepath : String) (hash : Nat) : Bool :=
  match aGet cache filepath with
  | none => false
  | some cached =>
    if cached.hash ≠ hash then false
    else if cached.optimized = false then false
    else true

/-- The per-file outcome objects of `optimizeImage`: `{skipped, reason}`,
`{success, resized, ...}` and `{error}`.  `crashed` models an exception
escaping `optimizeImage` itself (only possible when the file disappears
before the hash read, which sits outside the try block and would reject the
whole run). -/
inductive OptResult where
  | skipped (reason : String)
  | success (resized : Bool) (originalSize optimizedSize savedBytes : Nat)
  | error (msg : String)
  | crashed (msg : String)
deriving DecidableEq, Repr

/-- Function `optimizeImage(filepath)` translated from src/scripts/optimize-images.mjs
lines 87-205, acting on the modelled file system and cache and returning the
outcome together with both updated states.  The source guards the unsupported
format with an early return on the negated test; here the positive test comes
first with the branches exchanged.  `now` stands for
`new Date().toISOString()`. -/
def optimizeImage (hashFn : List Nat → Nat) (codec : Codec) (now : String)
    (filepath : String) (fs : FS) (cache : Cache) : OptResult × FS × Cache :=
  let ext := extOf filepath
  if CONFIG.supportedFormats.contains ext then
    match aGet fs filepath with
    | none => (.crashed "ENOENT", fs, cache)
    | some content =>
      let hash := hashFn content
      if isOptimized cache filepath hash then
        (.skipped "Bereits optimiert", fs, cache)
      else
        let originalSize := content.length
        match codec.metadataWidth content with
        | .error e => (.error e, fs, cache)
        | .ok width =>
          let resized := resizeDecision filepath width
          let tempPath := tempPathOf filepath
          match codec.encode content (resizeToFor filepath width) (encOptsFor ext) with
          | .error e => (.error e, fs, cache)
          | .ok encoded =>
            let fs1 := aSet fs tempPath encoded
            let optimizedSize := encoded.length
            if optimizedSize < originalSize then
              let fs2 := fsRename fs1 tempPath filepath
              if ext ≠ ".webp" then
                match codec.encode ((aGet fs2 filepath).getD []) none
                    (.webp CONFIG.webpQuality) with
                | .error e => (.error e, fs2, cache)
                | .ok webpBytes =>
                  let fs3 := aSet fs2 (webpPathOf filepath ext) webpBytes
                  let entry : CacheEntry :=
                    ⟨hashFn ((aGet fs3 filepath).getD []), true, originalSize,
                      optimizedSize, now⟩
                  (.success resized originalSize optimizedSize
                      (originalSize - optimizedSize),
                    fs3, aSet cache filepath entry)
              else
                let entry : CacheEntry :=
                  ⟨hashFn ((aGet fs2 filepath).getD []), true, originalSize,
                    optimizedSize, now⟩
                (.success resized originalSize optimizedSize
                    (originalSize - optimizedSize),
                  fs2, aSet cache filepath entry)
            else
              let fs2 := aDel fs1 tempPath
              let entry : CacheEntry := ⟨hash, true, originalSize, originalSize, now⟩
              (.skipped "Keine Verbesserung möglich", fs2, aSet cache filepath entry)
  else
    (.skipped "Nicht unterstütztes Format", fs, cache)

/-- JS numbers as they flow through the summary accumulation: a missing object
field is `undefined`, and `number + undefined` is `NaN`, which then absorbs
every further addition. -/
inductive JsNum where
  | num (n : Nat)
  | nan
  | undef
deriving DecidableEq, Repr

def jsAdd : JsNum → JsNum → JsNum
  | .num a, .num b => .num (a + b)
  | _, _ => .nan

/-- The per-directory / total statistics object.  The two early returns of
`processDirectory` build `{processed: 0, skipped: 0, errors: 0}` without a
`totalSaved` field, hence `totalSaved : JsNum` with `undef` for the missing
field. -/
structure Stats where
  processed : Nat
  skipped : Nat
  errors : Nat
  totalSaved : JsNum
deriving DecidableEq, Repr

/-- The per-file loop of `processDirectory` (lines 235-255): run
`optimizeImage` on each path in order, tallying outcomes.  A `crashed` result
models a rejected awaited promise, which aborts the directory (and the run). -/
def processFiles (hashFn : List Nat → Nat) (codec : Codec) (now : String) :
    List String → FS → Cache → Stats → Except String (Stats × FS × Cache)
  | [], fs, cache, acc => .ok (acc, fs, cache)
  | f :: rest, fs, cache, acc =>
    match optimizeImage hashFn codec now f fs cache with
    | (.success _ _ _ saved, fs1, c1) =>
      processFiles hashFn codec now rest fs1 c1
        { acc with
          processed := acc.processed + 1
          totalSaved := jsAdd acc.totalSaved (.num saved) }
    | (.skipped _, fs1, c1) =>
      processFiles hashFn codec now rest fs1 c1 { acc with skipped := acc.skipped + 1 }
    | (.error _, fs1, c1) =>
      processFiles hashFn codec now rest fs1 c1 { acc with errors := acc.errors + 1 }
    | (.crashed m, _, _) => .error m

/-- Model of `path.join(dirPath, file)` for the paths this repository uses. -/
def pathJoin (dirPath file : String) : String := dirPath ++ "/" ++ file

/-- Function `processDirectory(dirPath)`: `listing` is `fs.readdirSync`'s result, or
`none` when `fs.existsSync` is false.  Both early returns produce a stats
object without a `totalSaved` field (`JsNum.undef`). -/
def processDirectory (hashFn : List Nat → Nat) (codec : Codec) (now : String)
    (dirPath : String) (listing : Option (List String)) (fs : FS) (cache : Cache) :
    Except String (Stats × FS × Cache) :=
  match listing with
  | none => .ok (⟨0, 0, 0, .undef⟩, fs, cache)
  | some files =>
    let imageFiles := files.filter
      (fun f => CONFIG.supportedFormats.contains (lowerStr (extname f)))
    if imageFiles.isEmpty then .ok (⟨0, 0, 0, .undef⟩, fs, cache)
    else
      processFiles hashFn codec now (imageFiles.map (pathJoin dirPath)) fs cache
        ⟨0, 0, 0, .num 0⟩

def addStats (a b : Stats) : Stats :=
  ⟨a.processed + b.processed, a.skipped + b.skipped, a.errors + b.errors,
    jsAdd a.totalSaved b.totalSaved⟩

/-- The directory loop of `main()` (lines 286-299): every configured directory
is processed in order and its stats are added onto the running totals, whose
`totalSaved` starts at the number 0. -/
def mainRun (hashFn : List Nat → Nat) (codec : Codec) (now : String) :
    List (String × Option (List String)) → FS → Cache →
    Except String (Stats × FS × Cache)
  | [], fs, cache => .ok (⟨0, 0, 0, .num 0⟩, fs, cache)
  | (dirPath, listing) :: rest, fs, cache =>
    match processDirectory hashFn codec now dirPath listing fs cache with
    | .error e => .error e
    | .ok (stats, fs1, c1) =>
      match mainRun hashFn codec now rest fs1 c1 with
      | .error e => .error e
      | .ok (total, fs2, c2) => .ok (addStats stats total, fs2, c2)

/-! ## Fetcher: `downloadImage(url, filepath)` (download script lines 41-72)

The HTTP stack is the external collaborator: `world` maps a URL to either a
response (status code, optional `Location` header, body) or a transport error
(the socket `error` event).  The source recurses unboundedly on redirects, so
the model carries a fuel parameter; every claim is about behaviour within the
available fuel.  `fs.createWriteStream` opens (and truncates) the target path
before the request is issued, modelled by binding the path to the empty byte
list.  A 301/302 response whose `Location` header is absent would make the
source recurse on `undefined` and crash the callback; the model returns a
distinguished error there. -/

inductive FetchResult where
  | resp (statusCode : Nat) (location : Option String) (body : List Nat)
  | transportError (msg : String)
deriving DecidableEq, Repr

def downloadImage (world : String → FetchResult) :
    Nat → String → String → FS → Except String String × FS
  | 0, _, _, fs => (.error "model: fuel exhausted", fs)
  | fuel + 1, url, filepath, fs =>
    let fs1 := aSet fs filepath []
    match world url with
    | .resp st loc body =>
      if st = 301 ∨ st = 302 then
        match loc with
        | some l => downloadImage world fuel l filepath fs1
        | none => (.error "model: redirect without location", fs1)
      else if st ≠ 200 then
        (.error ("Failed to download: " ++ toString st), fs1)
      else
        (.ok filepath, aSet fs1 filepath body)
    | .transportError m => (.error m, aDel fs1 filepath)

/-! ## Record shaper (news library modules)

`getPublishedNews` is a network query against the content source; the claims
about the shaper concern the pure filtering applied to its result, so the
article list is a parameter. -/

/-- The `NewsArticle` interface of the news library modules. -/
structure NewsArticle where
  id : String
  title : String
  date : String
  category : String
  excerpt : String
  content : String
  image : Option String
  author : String
  slug : String
deriving DecidableEq, Repr

/-- Function `getNewsByCategory(category)` applied to the fetched article list:
`if (category === 'Alle') return articles; return articles.filter(a =>
a.category === category)`. -/
def getNewsByCategory (articles : List NewsArticle) (category : String) :
    List NewsArticle :=
  if category = "Alle" then articles
  else articles.filter (fun a => a.category = category)

/-! ## `formatDate` (robust variant and bare near-duplicates)

JS `new Date(s)` is runtime-owned; `parse` models it, `none` standing for an
invalid date (`isNaN(date.getTime())`; the empty string always parses
invalid).  `fmt` models `toLocaleDateString('de-DE', {...})` on a valid date.
On an invalid date `toLocaleDateString` does not throw but returns the fixed
string "Invalid Date"; both functions being total models that neither variant
can throw. -/

/-- Function `formatDate` with fallback (news library with the `Kein Datum` guard):
`if (!dateString) return 'Kein Datum'; ... if (isNaN(date.getTime())) return
'Kein Datum'; return date.toLocaleDateString(...)` — the surrounding
`try/catch` can never fire because `toLocaleDateString` is total. -/
def formatDate (parse : String → Option Int) (fmt : Int → String)
    (dateString : String) : String :=
  if dateString = "" then "Kein Datum"
  else
    match parse dateString with
    | none => "Kein Datum"
    | some t => fmt t

/-- Function `formatDate` without fallback (the two near-duplicate modules):
`new Date(dateString).toLocaleDateString('de-DE', {...})`, which renders an
unparsable input as the runtime's "Invalid Date" string. -/
def formatDateBare (parse : String → Option Int) (fmt : Int → String)
    (dateString : String) : String :=
  match parse dateString with
  | none => "Invalid Date"
  | some t => fmt t

/-! ## Concrete instances for evaluating the model

Small executable stand-ins for the external collaborators, used to evaluate
the pipeline at concrete inputs. -/

/-- A concrete content digest (stands in for MD5: any deterministic function
of the bytes). -/
def sumHash (l : List Nat) : Nat := l.sum

/-- A codec whose re-encode always strictly shrinks a nonempty input by one
byte and whose metadata read succeeds without a width. -/
def demoCodec : Codec :=
  ⟨fun _ => .ok none, fun c _ _ => .ok (c.drop 1)⟩

/-- A codec whose re-encode always grows the input by one byte. -/
def demoCodecGrow : Codec :=
  ⟨fun _ => .ok none, fun c _ _ => .ok (0 :: c)⟩

/-- A codec whose metadata read always throws. -/
def demoCodecMetaErr : Codec :=
  ⟨fun _ => .error "metadata boom", fun c _ _ => .ok c⟩

/-- A codec that shrinks three-byte inputs but throws on the two-byte result,
so the derived-WebP sibling encode fails after the original was replaced. -/
def demoCodecSiblingErr : Codec :=
  ⟨fun _ => .ok none,
    fun c _ _ => if c.length = 2 then .error "sibling boom" else .ok (c.drop 1)⟩

/-- A concrete HTTP world: one URL answers 301, one 307 (both with a
`Location` pointing at the 200 target), the target answers 200, anything else
is a transport error. -/
def demoWorld : String → FetchResult := fun url =>
  if url = "http://cdn/redir301" then .resp 301 (some "http://cdn/img") []
  else if url = "http://cdn/redir307" then .resp 307 (some "http://cdn/img") []
  else if url = "http://cdn/img" then .resp 200 none [1, 2, 3]
  else .transportError "ECONNRESET"

/-- A concrete stand-in for JS date parsing: exactly one string parses. -/
def demoParse : String → Option Int := fun s =>
  if s = "2024-06-01" then some 0 else none

/-- A concrete stand-in for `toLocaleDateString` on a valid date. -/
def demoFmt : Int → String := fun _ => "01. Juni 2024"

def demoArticle : NewsArticle :=
  ⟨"id1", "Vereinsfeier", "2024-06-01", "Jugend", "", "", none, "SV Staden", "vereinsfeier"⟩

/-- Projections for inspecting a run result at concrete inputs. -/
def isOkE {α : Type} : Except String α → Bool
  | .ok _ => true
  | .error _ => false

def statsOf : Except String (Stats × FS × Cache) → Stats
  | .ok (s, _, _) => s
  | .error _ => ⟨0, 0, 0, .nan⟩

def fsOf : Except String (Stats × FS × Cache) → FS
  | .ok (_, fs, _) => fs
  | .error _ => []

def cacheOf : Except String (Stats × FS × Cache) → Cache
  | .ok (_, _, c) => c
  | .error _ => []

/-! ## Shared helper lemmas -/

theorem tempPath_ne (p : String) : tempPathOf p ≠ p := by
  intro h
  have h2 := congrArg String.length h
  rw [tempPathOf] at h2
  simp [String.length_append] at h2
  exact absurd h2 (by decide)

theorem isOptimized_of_entry (cache : Cache) (p : String) (e : CacheEntry) (hash : Nat)
    (he : aGet cache p = some e) (hh : e.hash = hash) (ho : e.optimized = true) :
    isOptimized cache p hash = true := by
  simp [isOptimized, he, hh, ho]

/-- A candidate whose cache entry is fresh and optimized is skipped without
touching the file system or the cache (unsupported extensions are likewise
skipped untouched before the hash is even consulted). -/
theorem optimizeImage_hit (hashFn : List Nat → Nat) (codec : Codec) (now p : String)
    (fs : FS) (cache : Cache) (content : List Nat)
    (hread : aGet fs p = some content)
    (hhit : isOptimized cache p (hashFn content) = true) :
    ∃ reason, optimizeImage hashFn codec now p fs cache = (.skipped reason, fs, cache) := by
  by_cases hsup : extOf p ∈ CONFIG.supportedFormats
  · exact ⟨"Bereits optimiert", by simp [optimizeImage, hsup, hread, hhit]⟩
  · exact ⟨"Nicht unterstütztes Format", by simp [optimizeImage, hsup]⟩

/-! ## Claims -/

/-- C1: for every file whose current content hash equals the hash stored in
its cache entry and whose cache entry has the optimized flag set, an
Optimizer run classifies the file as skipped, leaves the whole file system
(hence the file's bytes, and in particular any would-be WebP sibling)
unchanged, and leaves the cache unchanged. -/
theorem c1_cache_hit_skips (hashFn : List Nat → Nat) (codec : Codec) (now p : String)
    (fs : FS) (cache : Cache) (content : List Nat) (entry : CacheEntry)
    (hread : aGet fs p = some content)
    (hentry : aGet cache p = some entry)
    (hhash : entry.hash = hashFn content)
    (hopt : entry.optimized = true) :
    (∃ reason, (optimizeImage hashFn codec now p fs cache).1 = .skipped reason) ∧
    (optimizeImage hashFn codec now p fs cache).2.1 = fs ∧
    (optimizeImage hashFn codec now p fs cache).2.2 = cache := by
  obtain ⟨reason, hrun⟩ := optimizeImage_hit hashFn codec now p fs cache content hread
    (isOptimized_of_entry cache p entry (hashFn content) hentry hhash hopt)
  exact ⟨⟨reason, by rw [hrun]⟩, by rw [hrun], by rw [hrun]⟩

theorem c1_witness :
    (∃ reason, (optimizeImage sumHash demoCodec "t1" "/img/a.jpg"
        [("/img/a.jpg", [3, 3])] [("/img/a.jpg", ⟨6, true, 2, 2, "t0"⟩)]).1 =
      .skipped reason) ∧
    (optimizeImage sumHash demoCodec "t1" "/img/a.jpg"
        [("/img/a.jpg", [3, 3])] [("/img/a.jpg", ⟨6, true, 2, 2, "t0"⟩)]).2.1 =
      [("/img/a.jpg", [3, 3])] ∧
    (optimizeImage sumHash demoCodec "t1" "/img/a.jpg"
        [("/img/a.jpg", [3, 3])] [("/img/a.jpg", ⟨6, true, 2, 2, "t0"⟩)]).2.2 =
      [("/img/a.jpg", ⟨6, true, 2, 2, "t0"⟩)] :=
  c1_cache_hit_skips sumHash demoCodec "t1" "/img/a.jpg"
    [("/img/a.jpg", [3, 3])] [("/img/a.jpg", ⟨6, true, 2, 2, "t0"⟩)]
    [3, 3] ⟨6, true, 2, 2, "t0"⟩ (by decide) (by decide) (by decide) rfl

/-- C9 counterexample: the `formatDate` variants without the fallback guard
(cited alongside the guarded one by the claim) render the empty/unparsable
input as the runtime's "Invalid Date" string, not as a fixed placeholder. -/
theorem c9_counterexample :
    formatDateBare demoParse demoFmt "" = "Invalid Date" ∧
    formatDateBare demoParse demoFmt "" ≠ "Kein Datum" := by
  constructor
  · rfl
  · decide

/-- C9 (amended): every `formatDate` variant is total (never throws); the
guarded variant returns the fixed placeholder "Kein Datum" on empty or
unparsable input, while the two bare near-duplicate variants return the
runtime's "Invalid Date" rendering on unparsable input instead of a
placeholder. -/
theorem c9_formatDate_amended (parse : String → Option Int) (fmt : Int → String)
    (s : String) :
    formatDate parse fmt "" = "Kein Datum" ∧
    (parse s = none → formatDate parse fmt s = "Kein Datum") ∧
    (parse s = none → formatDateBare parse fmt s = "Invalid Date") := by
  refine ⟨rfl, ?_, ?_⟩
  · intro h
    by_cases hs : s = "" <;> simp [formatDate, hs, h]
  · intro h
    simp [formatDateBare, h]

theorem c9_witness :
    formatDate demoParse demoFmt "not-a-date" = "Kein Datum" ∧
    formatDateBare demoParse demoFmt "not-a-date" = "Invalid Date" :=
  ⟨(c9_formatDate_amended demoParse demoFmt "not-a-date").2.1 (by decide),
    (c9_formatDate_amended demoParse demoFmt "not-a-date").2.2 (by decide)⟩

/-- C10: `getNewsByCategory` applied to the published-article list returns
the whole list unfiltered for the exact argument "Alle" (even when articles
carry other categories), and for any other argument returns exactly the
articles whose category field equals it. -/
theorem c10_getNewsByCategory :
    (∀ articles : List NewsArticle, getNewsByCategory articles "Alle" = articles) ∧
    (∀ (articles : List NewsArticle) (category : String) (a : NewsArticle),
      category ≠ "Alle" →
      (a ∈ getNewsByCategory articles category ↔ a ∈ articles ∧ a.category = category)) := by
  constructor
  · intro articles
    simp [getNewsByCategory]
  · intro articles category a h
    simp [getNewsByCategory, h, List.mem_filter]

theorem c10_witness :
    demoArticle ∈ getNewsByCategory [demoArticle] "Jugend" ↔
      demoArticle ∈ [demoArticle] ∧ demoArticle.category = "Jugend" :=
  c10_getNewsByCategory.2 [demoArticle] "Jugend" demoArticle (by decide)

/-- C4: for every candidate file whose re-encoded temporary output is not
strictly smaller than the original, the Optimizer deletes the temporary file,
leaves the original bytes unchanged, and writes a cache entry holding the
original file's hash with the optimized flag set and `optimizedSize` equal to
`originalSize`. -/
theorem c4_no_improvement (hashFn : List Nat → Nat) (codec : Codec) (now p : String)
    (fs : FS) (cache : Cache) (content : List Nat) (width : Option Nat) (encoded : List Nat)
    (hread : aGet fs p = some content)
    (hsup : extOf p ∈ CONFIG.supportedFormats)
    (hmiss : isOptimized cache p (hashFn content) = false)
    (hmeta : codec.metadataWidth content = .ok width)
    (henc : codec.encode content (resizeToFor p width) (encOptsFor (extOf p)) = .ok encoded)
    (hge : content.length ≤ encoded.length) :
    (optimizeImage hashFn codec now p fs cache).1 = .skipped "Keine Verbesserung möglich" ∧
    aGet (optimizeImage hashFn codec now p fs cache).2.1 p = some content ∧
    aGet (optimizeImage hashFn codec now p fs cache).2.1 (tempPathOf p) = none ∧
    aGet (optimizeImage hashFn codec now p fs cache).2.2 p =
      some ⟨hashFn content, true, content.length, content.length, now⟩ := by
  have hnotlt : ¬ encoded.length < content.length := not_lt.mpr hge
  have hne : p ≠ tempPathOf p := fun h => tempPath_ne p h.symm
  refine ⟨?_, ?_, ?_, ?_⟩
  · simp [optimizeImage, hsup, hread, hmiss, hmeta, henc, hnotlt]
  · simp [optimizeImage, hsup, hread, hmiss, hmeta, henc, hnotlt]
    rw [aGet_aDel_ne _ _ _ hne, aGet_aSet_ne _ _ _ _ hne, hread]
  · simp [optimizeImage, hsup, hread, hmiss, hmeta, henc, hnotlt, aGet_aDel_self]
  · simp [optimizeImage, hsup, hread, hmiss, hmeta, henc, hnotlt, aGet_aSet_self]

theorem c4_witness :
    (optimizeImage sumHash demoCodecGrow "t1" "/img/b.png"
        [("/img/b.png", [2, 2])] []).1 = .skipped "Keine Verbesserung möglich" ∧
    aGet (optimizeImage sumHash demoCodecGrow "t1" "/img/b.png"
        [("/img/b.png", [2, 2])] []).2.1 "/img/b.png" = some [2, 2] ∧
    aGet (optimizeImage sumHash demoCodecGrow "t1" "/img/b.png"
        [("/img/b.png", [2, 2])] []).2.1 (tempPathOf "/img/b.png") = none ∧
    aGet (optimizeImage sumHash demoCodecGrow "t1" "/img/b.png"
        [("/img/b.png", [2, 2])] []).2.2 "/img/b.png" =
      some ⟨4, true, 2, 2, "t1"⟩ :=
  c4_no_improvement sumHash demoCodecGrow "t1" "/img/b.png"
    [("/img/b.png", [2, 2])] [] [2, 2] none [0, 2, 2]
    (by decide) (by decide) (by decide) rfl rfl (by decide)

/-- C3 counterexample: for the candidate `/d/a.jpg.jpg` (extension `.jpg`,
supported, shrinking re-encode), the WebP artifact is emitted at
`/d/a.webp.jpg` — JS `replace` rewrote the first occurrence of `.jpg` — and
no file appears at the claimed sibling path `/d/a.jpg.webp` (same basename
with a `.webp` extension). -/
theorem c3_counterexample :
    (optimizeImage sumHash demoCodec "t1" "/d/a.jpg.jpg"
        [("/d/a.jpg.jpg", [3, 3, 3])] []).1 = .success false 3 2 1 ∧
    aGet (optimizeImage sumHash demoCodec "t1" "/d/a.jpg.jpg"
        [("/d/a.jpg.jpg", [3, 3, 3])] []).2.1 "/d/a.jpg.webp" = none ∧
    aGet (optimizeImage sumHash demoCodec "t1" "/d/a.jpg.jpg"
        [("/d/a.jpg.jpg", [3, 3, 3])] []).2.1 "/d/a.webp.jpg" = some [3] := by
  decide

/-- C3 (amended): for every candidate whose re-encoded temporary output is
strictly smaller, the Optimizer reports success and replaces the original
with the smaller result.  When the source extension is `.webp`, no sibling is
emitted and the cache entry stores the hash of the now-optimized file with
`optimizedSize < originalSize` (first conjunct).  When the source extension
is not `.webp` and the sibling encode succeeds, the extra WebP encoding is
emitted at the path obtained by replacing the *first* occurrence of the
lowercased extension in the file path with `.webp` (this equals the basename
with a `.webp` extension exactly when that first occurrence is the final
extension); whenever that derived path differs from the file's own path, the
original holds the smaller result and the cache entry stores the hash of the
now-optimized file with `optimizedSize < originalSize` (second conjunct). -/
theorem c3_shrink_commit_amended :
    (∀ (hashFn : List Nat → Nat) (codec : Codec) (now p : String) (fs : FS)
        (cache : Cache) (content : List Nat) (width : Option Nat) (encoded : List Nat),
      aGet fs p = some content →
      isOptimized cache p (hashFn content) = false →
      codec.metadataWidth content = .ok width →
      codec.encode content (resizeToFor p width) (encOptsFor (extOf p)) = .ok encoded →
      encoded.length < content.length →
      extOf p = ".webp" →
      (optimizeImage hashFn codec now p fs cache).1 =
        .success (resizeDecision p width) content.length encoded.length
          (content.length - encoded.length) ∧
      aGet (optimizeImage hashFn codec now p fs cache).2.1 p = some encoded ∧
      aGet (optimizeImage hashFn codec now p fs cache).2.2 p =
        some ⟨hashFn encoded, true, content.length, encoded.length, now⟩) ∧
    (∀ (hashFn : List Nat → Nat) (codec : Codec) (now p : String) (fs : FS)
        (cache : Cache) (content : List Nat) (width : Option Nat)
        (encoded webpBytes : List Nat),
      aGet fs p = some content →
      extOf p ∈ CONFIG.supportedFormats →
      isOptimized cache p (hashFn content) = false →
      codec.metadataWidth content = .ok width →
      codec.encode content (resizeToFor p width) (encOptsFor (extOf p)) = .ok encoded →
      encoded.length < content.length →
      extOf p ≠ ".webp" →
      codec.encode encoded none (.webp CONFIG.webpQuality) = .ok webpBytes →
      (optimizeImage hashFn codec now p fs cache).1 =
        .success (resizeDecision p width) content.length encoded.length
          (content.length - encoded.length) ∧
      aGet (optimizeImage hashFn codec now p fs cache).2.1 (webpPathOf p (extOf p)) =
        some webpBytes ∧
      (webpPathOf p (extOf p) ≠ p →
        aGet (optimizeImage hashFn codec now p fs cache).2.1 p = some encoded ∧
        aGet (optimizeImage hashFn codec now p fs cache).2.2 p =
          some ⟨hashFn encoded, true, content.length, encoded.length, now⟩)) := by
  constructor
  · intro hashFn codec now p fs cache content width encoded
      hread hmiss hmeta henc hlt hwe
    have hfs2 : aGet (fsRename (aSet fs (tempPathOf p) encoded) (tempPathOf p) p) p =
        some encoded :=
      aGet_fsRename_dst _ _ _ _ (aGet_aSet_self _ _ _)
    have hws : (".webp" : String) ∈ CONFIG.supportedFormats := by decide
    rw [hwe] at henc
    refine ⟨?_, ?_, ?_⟩
    · simp [optimizeImage, hws, hread, hmiss, hmeta, henc, hlt, hwe, hfs2]
    · simp [optimizeImage, hws, hread, hmiss, hmeta, henc, hlt, hwe, hfs2]
    · simp [optimizeImage, hws, hread, hmiss, hmeta, henc, hlt, hwe, hfs2, aGet_aSet_self]
  · intro hashFn codec now p fs cache content width encoded webpBytes
      hread hsup hmiss hmeta henc hlt hext hsib
    have hfs2 : aGet (fsRename (aSet fs (tempPathOf p) encoded) (tempPathOf p) p) p =
        some encoded :=
      aGet_fsRename_dst _ _ _ _ (aGet_aSet_self _ _ _)
    refine ⟨?_, ?_, ?_⟩
    · simp [optimizeImage, hsup, hread, hmiss, hmeta, henc, hlt, hext, hfs2, hsib]
    · simp [optimizeImage, hsup, hread, hmiss, hmeta, henc, hlt, hext, hfs2, hsib,
        aGet_aSet_self]
    · intro hne
      have hp : aGet (aSet (fsRename (aSet fs (tempPathOf p) encoded) (tempPathOf p) p)
          (webpPathOf p (extOf p)) webpBytes) p = some encoded := by
        rw [aGet_aSet_ne _ _ _ _ (Ne.symm hne), hfs2]
      constructor
      · simp [optimizeImage, hsup, hread, hmiss, hmeta, henc, hlt, hext, hfs2, hsib, hp]
      · simp [optimizeImage, hsup, hread, hmiss, hmeta, henc, hlt, hext, hfs2, hsib,
          aGet_aSet_self, hp]

theorem c3_witness :
    ((optimizeImage sumHash demoCodec "t1" "/img/d.webp"
        [("/img/d.webp", [8, 8, 8])] []).1 = .success false 3 2 1 ∧
      aGet (optimizeImage sumHash demoCodec "t1" "/img/d.webp"
        [("/img/d.webp", [8, 8, 8])] []).2.1 "/img/d.webp" = some [8, 8] ∧
      aGet (optimizeImage sumHash demoCodec "t1" "/img/d.webp"
        [("/img/d.webp", [8, 8, 8])] []).2.2 "/img/d.webp" =
        some ⟨16, true, 3, 2, "t1"⟩) ∧
    ((optimizeImage sumHash demoCodec "t1" "/img/c.jpg"
        [("/img/c.jpg", [7, 7, 7])] []).1 = .success false 3 2 1 ∧
      aGet (optimizeImage sumHash demoCodec "t1" "/img/c.jpg"
        [("/img/c.jpg", [7, 7, 7])] []).2.1 (webpPathOf "/img/c.jpg" (extOf "/img/c.jpg")) =
        some [7] ∧
      (webpPathOf "/img/c.jpg" (extOf "/img/c.jpg") ≠ "/img/c.jpg" →
        aGet (optimizeImage sumHash demoCodec "t1" "/img/c.jpg"
            [("/img/c.jpg", [7, 7, 7])] []).2.1 "/img/c.jpg" = some [7, 7] ∧
        aGet (optimizeImage sumHash demoCodec "t1" "/img/c.jpg"
            [("/img/c.jpg", [7, 7, 7])] []).2.2 "/img/c.jpg" =
          some ⟨14, true, 3, 2, "t1"⟩)) :=
  ⟨c3_shrink_commit_amended.1 sumHash demoCodec "t1" "/img/d.webp"
      [("/img/d.webp", [8, 8, 8])] [] [8, 8, 8] none [8, 8]
      (by decide) (by decide) rfl rfl (by decide) (by decide),
    c3_shrink_commit_amended.2 sumHash demoCodec "t1" "/img/c.jpg"
      [("/img/c.jpg", [7, 7, 7])] [] [7, 7, 7] none [7, 7] [7]
      (by decide) (by decide) (by decide) rfl rfl (by decide) (by decide) rfl⟩

/-- Inversion on an error outcome of `optimizeImage`: the cache is never
mutated, and the file's bytes are unchanged unless the error came from the
derived-WebP sibling encode, which runs after the original has already been
replaced by a strictly smaller re-encoding. -/
theorem optimizeImage_error_state (hashFn : List Nat → Nat) (codec : Codec) (now p : String)
    (fs : FS) (cache : Cache) (e : String) (fs' : FS) (c' : Cache)
    (h : optimizeImage hashFn codec now p fs cache = (.error e, fs', c')) :
    c' = cache ∧
    (aGet fs' p = aGet fs p ∨
      ∃ c0 enc, aGet fs p = some c0 ∧ aGet fs' p = some enc ∧ enc.length < c0.length) := by
  by_cases hsup : extOf p ∈ CONFIG.supportedFormats
  · rcases hread : aGet fs p with _ | content
    · simp [optimizeImage, hsup, hread] at h
    · by_cases hopt : isOptimized cache p (hashFn content) = true
      · simp [optimizeImage, hsup, hread, hopt] at h
      · have hopt2 : isOptimized cache p (hashFn content) = false := by
          simpa using hopt
        rcases hmeta : codec.metadataWidth content with em | width
        · simp [optimizeImage, hsup, hread, hopt2, hmeta] at h
          obtain ⟨-, hfs, hc⟩ := h
          exact ⟨hc.symm, Or.inl (by rw [← hfs]; exact hread)⟩
        · rcases henc : codec.encode content (resizeToFor p width) (encOptsFor (extOf p))
            with ee | encoded
          · simp [optimizeImage, hsup, hread, hopt2, hmeta, henc] at h
            obtain ⟨-, hfs, hc⟩ := h
            exact ⟨hc.symm, Or.inl (by rw [← hfs]; exact hread)⟩
          · by_cases hlt : encoded.length < content.length
            · by_cases hwe : extOf p = ".webp"
              · have hws : (".webp" : String) ∈ CONFIG.supportedFormats := by decide
                rw [hwe] at henc
                simp [optimizeImage, hsup, hread, hopt2, hmeta, henc, hlt, hwe, hws] at h
              · have hfs2 : aGet (fsRename (aSet fs (tempPathOf p) encoded)
                    (tempPathOf p) p) p = some encoded :=
                  aGet_fsRename_dst _ _ _ _ (aGet_aSet_self _ _ _)
                rcases hsib : codec.encode encoded none (.webp CONFIG.webpQuality)
                  with es | wb
                · simp [optimizeImage, hsup, hread, hopt2, hmeta, henc, hlt, hwe,
                    hfs2, hsib] at h
                  obtain ⟨-, hfs, hc⟩ := h
                  refine ⟨hc.symm, Or.inr ⟨content, encoded, rfl, ?_, hlt⟩⟩
                  rw [← hfs]
                  exact hfs2
                · simp [optimizeImage, hsup, hread, hopt2, hmeta, henc, hlt, hwe,
                    hfs2, hsib] at h
            · simp [optimizeImage, hsup, hread, hopt2, hmeta, henc, hlt] at h
  · simp [optimizeImage, hsup] at h

/-- C2 counterexample: with a codec whose derived-WebP sibling encode throws
after the main re-encode shrank `/d/b.jpg`, the run records an error and
leaves the cache alone, yet the file's on-disk bytes *have* been mutated
(replaced by the shrunk re-encoding), contradicting the claim's "does not
mutate the file's on-disk bytes". -/
theorem c2_counterexample :
    (optimizeImage sumHash demoCodecSiblingErr "t1" "/d/b.jpg"
        [("/d/b.jpg", [7, 7, 7])] []).1 = .error "sibling boom" ∧
    (optimizeImage sumHash demoCodecSiblingErr "t1" "/d/b.jpg"
        [("/d/b.jpg", [7, 7, 7])] []).2.2 = [] ∧
    aGet (optimizeImage sumHash demoCodecSiblingErr "t1" "/d/b.jpg"
        [("/d/b.jpg", [7, 7, 7])] []).2.1 "/d/b.jpg" = some [7, 7] := by
  decide

/-- C2 (amended): for every file on which an error is raised during metadata
read or encode, the Optimizer records an error outcome, never mutates the
cache entry, and continues with the remaining files (the error result bumps
only the error counter); the file's on-disk bytes are unchanged unless the
error was raised by the derived-WebP sibling encode, in which case the
original had already been replaced by the strictly smaller re-encoding. -/
theorem c2_error_amended :
    (∀ (hashFn : List Nat → Nat) (codec : Codec) (now p : String) (fs : FS)
        (cache : Cache) (e : String) (fs' : FS) (c' : Cache),
      optimizeImage hashFn codec now p fs cache = (.error e, fs', c') →
      c' = cache ∧
        (aGet fs' p = aGet fs p ∨
          ∃ c0 enc, aGet fs p = some c0 ∧ aGet fs' p = some enc ∧
            enc.length < c0.length)) ∧
    (∀ (hashFn : List Nat → Nat) (codec : Codec) (now p : String) (fs : FS)
        (cache : Cache) (e : String) (fs' : FS) (c' : Cache)
        (rest : List String) (acc : Stats),
      optimizeImage hashFn codec now p fs cache = (.error e, fs', c') →
      processFiles hashFn codec now (p :: rest) fs cache acc =
        processFiles hashFn codec now rest fs' c'
          { acc with errors := acc.errors + 1 }) := by
  constructor
  · exact optimizeImage_error_state
  · intro hashFn codec now p fs cache e fs' c' rest acc h
    simp [processFiles, h]

theorem c2_witness :
    (([] : Cache) = [] ∧
      (aGet [("/d/m.jpg", [1, 2])] "/d/m.jpg" = aGet [("/d/m.jpg", [1, 2])] "/d/m.jpg" ∨
        ∃ c0 enc, aGet [("/d/m.jpg", [1, 2])] "/d/m.jpg" = some c0 ∧
          aGet [("/d/m.jpg", [1, 2])] "/d/m.jpg" = some enc ∧
            enc.length < c0.length)) :=
  c2_error_amended.1 sumHash demoCodecMetaErr "t1" "/d/m.jpg"
    [("/d/m.jpg", [1, 2])] [] "metadata boom" [("/d/m.jpg", [1, 2])] [] (by decide)

/-- Inversion on a success outcome of `optimizeImage`: the extension was
supported, the file exists in the resulting file system, and the fresh cache
entry stores exactly the hash of those resulting bytes together with the
reported sizes and the optimized flag. -/
theorem optimizeImage_success_state (hashFn : List Nat → Nat) (codec : Codec) (now p : String)
    (fs : FS) (cache : Cache) (rz : Bool) (os sz sv : Nat) (fs' : FS) (c' : Cache)
    (h : optimizeImage hashFn codec now p fs cache = (.success rz os sz sv, fs', c')) :
    extOf p ∈ CONFIG.supportedFormats ∧
    ∃ content, aGet fs' p = some content ∧
      aGet c' p = some ⟨hashFn content, true, os, sz, now⟩ := by
  by_cases hsup : extOf p ∈ CONFIG.supportedFormats
  · refine ⟨hsup, ?_⟩
    rcases hread : aGet fs p with _ | content
    · simp [optimizeImage, hsup, hread] at h
    · by_cases hopt : isOptimized cache p (hashFn content) = true
      · simp [optimizeImage, hsup, hread, hopt] at h
      · have hopt2 : isOptimized cache p (hashFn content) = false := by
          simpa using hopt
        rcases hmeta : codec.metadataWidth content with em | width
        · simp [optimizeImage, hsup, hread, hopt2, hmeta] at h
        · rcases henc : codec.encode content (resizeToFor p width) (encOptsFor (extOf p))
            with ee | encoded
          · simp [optimizeImage, hsup, hread, hopt2, hmeta, henc] at h
          · by_cases hlt : encoded.length < content.length
            · have hfs2 : aGet (fsRename (aSet fs (tempPathOf p) encoded)
                  (tempPathOf p) p) p = some encoded :=
                aGet_fsRename_dst _ _ _ _ (aGet_aSet_self _ _ _)
              by_cases hwe : extOf p = ".webp"
              · have hws : (".webp" : String) ∈ CONFIG.supportedFormats := by decide
                rw [hwe] at henc
                simp [optimizeImage, hsup, hread, hopt2, hmeta, henc, hlt, hwe, hws,
                  hfs2] at h
                obtain ⟨⟨hrz, hos, hsz, hsv⟩, hfs, hc⟩ := h
                refine ⟨encoded, ?_, ?_⟩
                · rw [← hfs]
                  exact hfs2
                · rw [← hc, ← hos, ← hsz]
                  exact aGet_aSet_self _ _ _
              · rcases hsib : codec.encode encoded none (.webp CONFIG.webpQuality)
                  with es | wb
                · simp [optimizeImage, hsup, hread, hopt2, hmeta, henc, hlt, hwe,
                    hfs2, hsib] at h
                · simp [optimizeImage, hsup, hread, hopt2, hmeta, henc, hlt, hwe,
                    hfs2, hsib] at h
                  obtain ⟨⟨hrz, hos, hsz, hsv⟩, hfs, hc⟩ := h
                  by_cases hwp : webpPathOf p (extOf p) = p
                  · have hget : aGet (aSet (fsRename (aSet fs (tempPathOf p) encoded)
                        (tempPathOf p) p) (webpPathOf p (extOf p)) wb) p = some wb := by
                      rw [hwp]
                      exact aGet_aSet_self _ _ _
                    refine ⟨wb, ?_, ?_⟩
                    · rw [← hfs]
                      exact hget
                    · rw [← hc, ← hos, ← hsz]
                      rw [aGet_aSet_self, hget]
                      simp
                  · have hget : aGet (aSet (fsRename (aSet fs (tempPathOf p) encoded)
                        (tempPathOf p) p) (webpPathOf p (extOf p)) wb) p = some encoded := by
                      rw [aGet_aSet_ne _ _ _ _ (fun hh => hwp hh.symm)]
                      exact hfs2
                    refine ⟨encoded, ?_, ?_⟩
                    · rw [← hfs]
                      exact hget
                    · rw [← hc, ← hos, ← hsz]
                      rw [aGet_aSet_self, hget]
                      simp
            · simp [optimizeImage, hsup, hread, hopt2, hmeta, henc, hlt] at h
  · simp [optimizeImage, hsup] at h

/-- Every file currently matching an optimized cache entry is skipped and the
run touches nothing; over a whole file list this yields `processed = 0` with
the state returned unchanged. -/
theorem processFiles_all_hit (hashFn : List Nat → Nat) (codec : Codec) (now : String)
    (files : List String) :
    ∀ (fs : FS) (cache : Cache) (acc : Stats),
      (∀ f ∈ files, ∃ content, aGet fs f = some content ∧
        isOptimized cache f (hashFn content) = true) →
      processFiles hashFn codec now files fs cache acc =
        .ok ({ acc with skipped := acc.skipped + files.length }, fs, cache) := by
  induction files with
  | nil =>
    intro fs cache acc h
    simp [processFiles]
  | cons f rest ih =>
    intro fs cache acc h
    obtain ⟨content, hread, hhit⟩ := h f (List.mem_cons_self f rest)
    obtain ⟨reason, hrun⟩ := optimizeImage_hit hashFn codec now f fs cache content hread hhit
    rw [processFiles, hrun]
    show processFiles hashFn codec now rest fs cache { acc with skipped := acc.skipped + 1 } =
      Except.ok ({ acc with skipped := acc.skipped + (f :: rest).length }, fs, cache)
    rw [ih fs cache { acc with skipped := acc.skipped + 1 }
      (fun g hg => h g (List.mem_cons_of_mem f hg))]
    have harith : acc.skipped + 1 + rest.length = acc.skipped + (f :: rest).length := by
      simp [List.length_cons]
      omega
    rw [harith]

/-- C5 counterexample: a directory holding `x.webp` and `x.jpg`, processed in
that order, has both files processed successfully on the first run — but the
sibling WebP artifact of `x.jpg` overwrites `x.webp` after its cache entry
was written, so the second run (with no filesystem changes in between)
reprocesses `x.webp` and reports `processed = 1`, not `0`. -/
theorem c5_counterexample :
    isOkE (processFiles sumHash demoCodec "t1" ["/p/x.webp", "/p/x.jpg"]
      [("/p/x.webp", [5, 5, 5]), ("/p/x.jpg", [9, 9, 9, 9])] [] ⟨0, 0, 0, .num 0⟩) = true ∧
    (statsOf (processFiles sumHash demoCodec "t1" ["/p/x.webp", "/p/x.jpg"]
      [("/p/x.webp", [5, 5, 5]), ("/p/x.jpg", [9, 9, 9, 9])] [] ⟨0, 0, 0, .num 0⟩)).processed = 2 ∧
    (statsOf (processFiles sumHash demoCodec "t2" ["/p/x.webp", "/p/x.jpg"]
      (fsOf (processFiles sumHash demoCodec "t1" ["/p/x.webp", "/p/x.jpg"]
        [("/p/x.webp", [5, 5, 5]), ("/p/x.jpg", [9, 9, 9, 9])] [] ⟨0, 0, 0, .num 0⟩))
      (cacheOf (processFiles sumHash demoCodec "t1" ["/p/x.webp", "/p/x.jpg"]
        [("/p/x.webp", [5, 5, 5]), ("/p/x.jpg", [9, 9, 9, 9])] [] ⟨0, 0, 0, .num 0⟩))
      ⟨0, 0, 0, .num 0⟩)).processed = 1 := by
  decide

/-- C5 (amended): immediately after a file's own successful processing its
cache entry matches its bytes, so running the Optimizer again on that file
from that very state classifies it as skipped ("already optimized"); and a
run over any file list in which every file still matches its optimized cache
entry reports `processed = 0` and changes nothing.  (A later file of the same
first run may overwrite an earlier file's bytes via its derived-WebP sibling
path, which is what the counterexample exhibits; the claim's unconditional
two-run statement fails there.) -/
theorem c5_second_run_amended :
    (∀ (hashFn : List Nat → Nat) (codec : Codec) (now1 now2 p : String) (fs : FS)
        (cache : Cache) (rz : Bool) (os sz sv : Nat) (fs' : FS) (c' : Cache),
      optimizeImage hashFn codec now1 p fs cache = (.success rz os sz sv, fs', c') →
      optimizeImage hashFn codec now2 p fs' c' = (.skipped "Bereits optimiert", fs', c')) ∧
    (∀ (hashFn : List Nat → Nat) (codec : Codec) (now : String) (files : List String)
        (fs : FS) (cache : Cache) (acc : Stats),
      (∀ f ∈ files, ∃ content, aGet fs f = some content ∧
        isOptimized cache f (hashFn content) = true) →
      processFiles hashFn codec now files fs cache acc =
        .ok ({ acc with skipped := acc.skipped + files.length }, fs, cache)) := by
  constructor
  · intro hashFn codec now1 now2 p fs cache rz os sz sv fs' c' h
    obtain ⟨hsup, content, hfsp, hcp⟩ :=
      optimizeImage_success_state hashFn codec now1 p fs cache rz os sz sv fs' c' h
    have hhit : isOptimized c' p (hashFn content) = true :=
      isOptimized_of_entry c' p ⟨hashFn content, true, os, sz, now1⟩ (hashFn content)
        hcp rfl rfl
    simp [optimizeImage, hsup, hfsp, hhit]
  · intro hashFn codec now files fs cache acc h
    exact processFiles_all_hit hashFn codec now files fs cache acc h

theorem c5_witness :
    optimizeImage sumHash demoCodec "t2" "/q/b.png"
        (optimizeImage sumHash demoCodec "t1" "/q/b.png" [("/q/b.png", [4, 4, 4])] []).2.1
        (optimizeImage sumHash demoCodec "t1" "/q/b.png" [("/q/b.png", [4, 4, 4])] []).2.2 =
      (.skipped "Bereits optimiert",
        (optimizeImage sumHash demoCodec "t1" "/q/b.png" [("/q/b.png", [4, 4, 4])] []).2.1,
        (optimizeImage sumHash demoCodec "t1" "/q/b.png" [("/q/b.png", [4, 4, 4])] []).2.2) :=
  c5_second_run_amended.1 sumHash demoCodec "t1" "t2" "/q/b.png"
    [("/q/b.png", [4, 4, 4])] [] false 3 2 1
    (optimizeImage sumHash demoCodec "t1" "/q/b.png" [("/q/b.png", [4, 4, 4])] []).2.1
    (optimizeImage sumHash demoCodec "t1" "/q/b.png" [("/q/b.png", [4, 4, 4])] []).2.2
    (by decide)

/-- C7 counterexample: a 307 redirect carrying a `Location` header — a 3xx
redirect in the claim's sense — is not followed: the code recurses only on
status 301 and 302 and rejects 307 as a terminal failure, even though the
redirect target itself downloads fine. -/
theorem c7_counterexample :
    demoWorld "http://cdn/redir307" = .resp 307 (some "http://cdn/img") [] ∧
    downloadImage demoWorld 5 "http://cdn/redir307" "/img/news/x.jpg" [] =
      (.error "Failed to download: 307", [("/img/news/x.jpg", [])]) ∧
    downloadImage demoWorld 5 "http://cdn/img" "/img/news/x.jpg" [] =
      (.ok "/img/news/x.jpg", [("/img/news/x.jpg", [1, 2, 3])]) := by
  decide

/-- C7 (amended): the Fetcher issues a GET and transparently follows a 301 or
302 redirect carrying a `Location` header by recursing; any other terminal
status than 200 fails with a download error (the partially created file is
kept); a 200 response writes the body to the target path; and a transport
error deletes the partially written file. -/
theorem c7_download_amended :
    (∀ (world : String → FetchResult) (fuel : Nat) (url fp : String) (fs : FS)
        (st : Nat) (l : String) (body : List Nat),
      world url = .resp st (some l) body → st = 301 ∨ st = 302 →
      downloadImage world (fuel + 1) url fp fs =
        downloadImage world fuel l fp (aSet fs fp [])) ∧
    (∀ (world : String → FetchResult) (fuel : Nat) (url fp : String) (fs : FS)
        (st : Nat) (loc : Option String) (body : List Nat),
      world url = .resp st loc body → ¬(st = 301 ∨ st = 302) → st ≠ 200 →
      downloadImage world (fuel + 1) url fp fs =
        (.error ("Failed to download: " ++ toString st), aSet fs fp [])) ∧
    (∀ (world : String → FetchResult) (fuel : Nat) (url fp : String) (fs : FS)
        (loc : Option String) (body : List Nat),
      world url = .resp 200 loc body →
      downloadImage world (fuel + 1) url fp fs = (.ok fp, aSet (aSet fs fp []) fp body)) ∧
    (∀ (world : String → FetchResult) (fuel : Nat) (url fp : String) (fs : FS)
        (m : String),
      world url = .transportError m →
      downloadImage world (fuel + 1) url fp fs = (.error m, aDel (aSet fs fp []) fp) ∧
        aGet (aDel (aSet fs fp []) fp) fp = none) := by
  refine ⟨?_, ?_, ?_, ?_⟩
  · intro world fuel url fp fs st l body hw hst
    rcases hst with h | h <;> subst h <;> simp [downloadImage, hw]
  · intro world fuel url fp fs st loc body hw hnr hne
    simp [downloadImage, hw, hnr, hne]
  · intro world fuel url fp fs loc body hw
    simp [downloadImage, hw]
  · intro world fuel url fp fs m hw
    exact ⟨by simp [downloadImage, hw], aGet_aDel_self _ _⟩

theorem c7_witness :
    downloadImage demoWorld 5 "http://cdn/redir301" "/img/news/y.jpg" [] =
      downloadImage demoWorld 4 "http://cdn/img" "/img/news/y.jpg"
        (aSet [] "/img/news/y.jpg" []) :=
  c7_download_amended.1 demoWorld 4 "http://cdn/redir301" "/img/news/y.jpg" []
    301 "http://cdn/img" [] (by decide) (Or.inl rfl)

/-- C8: the two early returns of `processDirectory` (missing directory, no
supported images) build their stats object without a `totalSaved` field, so
`main`'s `totalStats.totalSaved += stats.totalSaved` adds `undefined` and
poisons the total to `NaN`: with one real success (1 byte saved) and one
missing configured directory, the summary reports `processed = 1` but a `NaN`
`totalBytesSaved` instead of the claimed sum over processed files with a zero
contribution from the missing directory. -/
theorem c8_totalSaved_nan :
    isOkE (mainRun sumHash demoCodec "t1" [("/p", some ["a.jpg"]), ("/missing", none)]
      [("/p/a.jpg", [9, 9, 9, 9])] []) = true ∧
    (statsOf (mainRun sumHash demoCodec "t1" [("/p", some ["a.jpg"]), ("/missing", none)]
      [("/p/a.jpg", [9, 9, 9, 9])] [])).processed = 1 ∧
    (statsOf (mainRun sumHash demoCodec "t1" [("/p", some ["a.jpg"]), ("/missing", none)]
      [("/p/a.jpg", [9, 9, 9, 9])] [])).totalSaved = .nan ∧
    (statsOf (mainRun sumHash demoCodec "t1" [("/p", some ["a.jpg"]), ("/missing", none)]
      [("/p/a.jpg", [9, 9, 9, 9])] [])).totalSaved ≠ .num 1 := by
  decide

/-! ### C6: slug derivation -/

/-- Characters produced by the non-alphanumeric collapse are lowercase
alphanumerics or hyphens. -/
theorem toHyphen_mem (l : List Char) :
    ∀ c ∈ l.map toHyphen, isLowerAlnum c = true ∨ c = '-' := by
  intro c hc
  rw [List.mem_map] at hc
  obtain ⟨a, -, rfl⟩ := hc
  by_cases h : isLowerAlnum a = true <;> simp [toHyphen, h]

theorem mem_squash : ∀ (l : List Char) (c : Char), c ∈ squash l → c ∈ l
  | [], c => by simp [squash]
  | [a], c => by simp [squash]
  | a :: b :: rest, c => by
    by_cases h : a = '-' ∧ b = '-'
    · intro hc
      simp only [squash, if_pos h] at hc
      exact List.mem_cons_of_mem a (mem_squash (b :: rest) c hc)
    · intro hc
      simp only [squash, if_neg h] at hc
      rcases List.mem_cons.mp hc with h1 | h1
      · exact h1 ▸ List.mem_cons_self _ _
      · exact List.mem_cons_of_mem a (mem_squash (b :: rest) c h1)

theorem mem_stripLead (l : List Char) (c : Char) : c ∈ stripLead l → c ∈ l := by
  cases l with
  | nil => simp [stripLead]
  | cons a t =>
    by_cases h : a = '-'
    · intro hc
      simp only [stripLead, if_pos h] at hc
      exact List.mem_cons_of_mem a hc
    · intro hc
      simpa only [stripLead, if_neg h] using hc

theorem mem_stripTrail : ∀ (l : List Char) (c : Char), c ∈ stripTrail l → c ∈ l
  | [], c => by simp [stripTrail]
  | [a], c => by
    by_cases h : a = '-' <;> simp [stripTrail, h]
  | a :: b :: rest, c => by
    intro hc
    simp only [stripTrail] at hc
    rcases List.mem_cons.mp hc with h1 | h1
    · exact h1 ▸ List.mem_cons_self _ _
    · exact List.mem_cons_of_mem a (mem_stripTrail (b :: rest) c h1)

theorem squash_head : ∀ (b : Char) (rest : List Char) (h : Char) (t : List Char),
    squash (b :: rest) = h :: t → h = '-' → b = '-'
  | b, [], h, t => by
    intro he hh
    simp only [squash] at he
    exact (List.cons.injEq b [] h t ▸ he).1.symm ▸ hh ▸ rfl
  | b, c :: r, h, t => by
    by_cases hbc : b = '-' ∧ c = '-'
    · intro he hh
      exact hbc.1
    · intro he hh
      simp only [squash, if_neg hbc] at he
      exact (List.cons.injEq b _ h t ▸ he).1.symm ▸ hh ▸ rfl

theorem squash_no_double : ∀ (l t1 t2 : List Char),
    squash l ≠ t1 ++ '-' :: '-' :: t2
  | [], t1, t2 => by
    intro h
    simp only [squash] at h
    exact (List.append_ne_nil_of_right_ne_nil t1 (by simp) h.symm)
  | [a], t1, t2 => by
    intro h
    simp only [squash] at h
    cases t1 with
    | nil => simp at h
    | cons x t1' =>
      rcases (List.cons.injEq a [] x _ ▸ h).2 with h2
      exact (List.append_ne_nil_of_right_ne_nil t1' (by simp) h2.symm)
  | a :: b :: rest, t1, t2 => by
    by_cases hab : a = '-' ∧ b = '-'
    · intro h
      simp only [squash, if_pos hab] at h
      exact squash_no_double (b :: rest) t1 t2 h
    · intro h
      simp only [squash, if_neg hab] at h
      cases t1 with
      | nil =>
        simp only [List.nil_append] at h
        have ha : a = '-' := (List.cons.injEq a _ _ _ ▸ h).1
        have hs : squash (b :: rest) = '-' :: t2 := (List.cons.injEq a _ _ _ ▸ h).2
        exact hab ⟨ha, squash_head b rest '-' t2 hs rfl⟩
      | cons x t1' =>
        have hs : squash (b :: rest) = t1' ++ '-' :: '-' :: t2 :=
          (List.cons.injEq a _ x _ ▸ h).2
        exact squash_no_double (b :: rest) t1' t2 hs

theorem no_double_tail (a : Char) (l : List Char)
    (h : ∀ t1 t2 : List Char, a :: l ≠ t1 ++ '-' :: '-' :: t2) :
    ∀ t1 t2 : List Char, l ≠ t1 ++ '-' :: '-' :: t2 := by
  intro t1 t2 hl
  exact h (a :: t1) t2 (by rw [hl, List.cons_append])

theorem no_lead_hyphen (l : List Char)
    (hnd : ∀ t1 t2 : List Char, l ≠ t1 ++ '-' :: '-' :: t2) :
    (stripTrail (stripLead l)).head? ≠ some '-' := by
  cases l with
  | nil => simp [stripLead, stripTrail]
  | cons h t =>
    by_cases hh : h = '-'
    · rw [stripLead, if_pos hh]
      cases t with
      | nil => simp [stripTrail]
      | cons x t2 =>
        have hx : x ≠ '-' := by
          intro hx
          exact hnd [] t2 (by rw [hh, hx]; rfl)
        cases t2 with
        | nil =>
          rw [stripTrail, if_neg hx]
          simp [hx]
        | cons y r =>
          rw [stripTrail]
          simp [hx]
    · rw [stripLead, if_neg hh]
      cases t with
      | nil =>
        rw [stripTrail, if_neg hh]
        simp [hh]
      | cons y r =>
        rw [stripTrail]
        simp [hh]

theorem stripTrail_eq_nil : ∀ l : List Char, stripTrail l = [] → l = [] ∨ l = ['-']
  | [] => fun _ => Or.inl rfl
  | [a] => by
    by_cases h : a = '-'
    · intro _
      exact Or.inr (by rw [h])
    · intro hc
      rw [stripTrail, if_neg h] at hc
      exact absurd hc (by simp)
  | a :: b :: rest => by
    intro hc
    rw [stripTrail] at hc
    exact absurd hc (by simp)

theorem no_trail_hyphen : ∀ l : List Char,
    (∀ t1 t2 : List Char, l ≠ t1 ++ '-' :: '-' :: t2) →
    (stripTrail l).getLast? ≠ some '-'
  | [] => by
    intro hnd
    simp [stripTrail]
  | [a] => by
    intro hnd
    by_cases h : a = '-' <;> simp [stripTrail, h]
  | a :: b :: rest => by
    intro hnd
    rw [stripTrail]
    cases hs : stripTrail (b :: rest) with
    | nil =>
      rcases stripTrail_eq_nil (b :: rest) hs with h1 | h1
      · exact absurd h1 (by simp)
      · have hb : b = '-' := (List.cons.injEq b rest '-' [] ▸ h1).1
        have hrest : rest = [] := (List.cons.injEq b rest '-' [] ▸ h1).2
        have ha : a ≠ '-' := by
          intro ha
          exact hnd [] [] (by rw [ha, hb, hrest]; rfl)
        simp [ha]
    | cons x xs =>
      rw [List.getLast?_cons_cons]
      rw [← hs]
      exact no_trail_hyphen (b :: rest) (no_double_tail a (b :: rest) hnd)

/-- C6: slugify is a pure deterministic function; every output character is
a lowercase ASCII letter, a digit or a hyphen; the output never begins or
ends with a hyphen (hyphens are internal); and the two specified examples
hold: "Vereinsfeier am Sonntag!" slugs to "vereinsfeier-am-sonntag" and
"Äöü & Groß!" to "aeoeue-gross". -/
theorem c6_slugify :
    (∀ s t : String, s = t → slugify s = slugify t) ∧
    (∀ s : String, ∀ c ∈ (slugify s).data, isLowerAlnum c = true ∨ c = '-') ∧
    (∀ s : String, (slugify s).data.head? ≠ some '-') ∧
    (∀ s : String, (slugify s).data.getLast? ≠ some '-') ∧
    slugify "Vereinsfeier am Sonntag!" = "vereinsfeier-am-sonntag" ∧
    slugify "Äöü & Groß!" = "aeoeue-gross" := by
  refine ⟨fun s t h => by rw [h], ?_, ?_, ?_, by decide, by decide⟩
  · intro s c hc
    have h1 : c ∈ stripLead (squash (((lowerL s.data).flatMap umlautExpand).map toHyphen)) :=
      mem_stripTrail _ c hc
    have h2 := mem_stripLead _ c h1
    have h3 := mem_squash _ c h2
    exact toHyphen_mem _ c h3
  · intro s
    exact no_lead_hyphen _ (squash_no_double _)
  · intro s
    have hq := squash_no_double (((lowerL s.data).flatMap umlautExpand).map toHyphen)
    have hnd : ∀ t1 t2 : List Char,
        stripLead (squash (((lowerL s.data).flatMap umlautExpand).map toHyphen)) ≠
          t1 ++ '-' :: '-' :: t2 := by
      cases hq2 : squash (((lowerL s.data).flatMap umlautExpand).map toHyphen) with
      | nil => simp [stripLead]
      | cons a t =>
        by_cases ha : a = '-'
        · rw [stripLead, if_pos ha]
          exact no_double_tail a t (hq2 ▸ hq)
        · rw [stripLead, if_neg ha]
          exact hq2 ▸ hq
    exact no_trail_hyphen _ hnd

theorem c6_witness : isLowerAlnum 'v' = true ∨ 'v' = '-' :=
  c6_slugify.2.1 "Vereinsfeier am Sonntag!" 'v' (by decide)

end SvStaden
